import Mathlib

/-!
Verification of the melody-extraction and trio-relabeling utilities.

This file gives a shallow embedding of the relevant parts of
`extract_melody.py` and `convert_to_trio.py` and proves the specified
properties about them.

Numeric conventions: Python float arithmetic is modelled with exact
rationals (`ℚ`); MIDI pitches and velocities are modelled as `Int`.
-/

set_option maxRecDepth 100000
set_option maxHeartbeats 1000000

attribute [local semireducible] Rat.ofScientific Rat.mul Rat.inv Rat.add Rat.sub

/-- A `pretty_midi.Note`: pitch, velocity, start and end time (seconds). -/
structure Note where
  pitch : Int
  velocity : Int
  start : ℚ
  end_ : ℚ
  deriving DecidableEq

/-- A `pretty_midi.Instrument`: program number, drum flag, name, note list. -/
structure Instrument where
  program : Int
  is_drum : Bool
  name : String
  notes : List Note
  deriving DecidableEq

/-- A `pretty_midi.PrettyMIDI` document, restricted to the attributes the
scripts use: `resolution`, the tempo values of `get_tempo_changes()[1]`,
and the instrument (track) list. -/
structure PrettyMIDI where
  resolution : Int
  tempos : List ℚ
  instruments : List Instrument
  deriving DecidableEq

/-- `Instrument.get_end_time()`: the largest note end time, `0` for an
instrument with no notes (control/pitch-bend events are not modelled). -/
def Instrument.get_end_time (ins : Instrument) : ℚ :=
  match ins.notes with
  | [] => 0
  | n :: rest => rest.foldl (fun a m => max a m.end_) n.end_

/-- `PrettyMIDI.get_end_time()`: the largest instrument end time, `0` for a
document with no instruments (meta events are not modelled). -/
def PrettyMIDI.get_end_time (midi_data : PrettyMIDI) : ℚ :=
  match midi_data.instruments with
  | [] => 0
  | i :: rest => rest.foldl (fun a j => max a j.get_end_time) i.get_end_time

/-- ASCII lowercasing of one character, as Python `str.lower` acts on the
ASCII letters (the CJK keywords are fixed points of `lower` in both). -/
def char_lower (c : Char) : Char :=
  if 'A' ≤ c ∧ c ≤ 'Z' then Char.ofNat (c.toNat + 32) else c

/-- Lowercase a character list. -/
def lower_chars (l : List Char) : List Char := l.map char_lower

/-- `needle` is a prefix of `hay` (character lists). -/
def charsPrefix : List Char → List Char → Bool
  | [], _ => true
  | _ :: _, [] => false
  | a :: as, b :: bs => a == b && charsPrefix as bs

/-- Python's substring test `needle in hay` on character lists. -/
def charsOccursIn (needle : List Char) : List Char → Bool
  | [] => needle.isEmpty
  | b :: rest => charsPrefix needle (b :: rest) || charsOccursIn needle rest

/-- The keyword list of `identify_melody_track`. -/
def melody_keywords : List String :=
  ["melody", "旋律", "主题", "主奏", "solo", "lead", "main"]

/-- `True` iff the (case-insensitively) lowered name contains some keyword:
the loop at lines 55-60 of `extract_melody.py` sets `name_score = 10`
exactly under this condition. -/
def has_melody_keyword (name : String) : Bool :=
  melody_keywords.any (fun keyword =>
    charsOccursIn (lower_chars keyword.data) (lower_chars name.data))

/-- The per-track record collected by `identify_melody_track` (a Python
dict; `melody_score` is added later by the scoring loop and is `0` until
`score_track` fills it in). -/
structure TrackInfo where
  index : Nat
  name : String
  program : Int
  is_drum : Bool
  num_notes : Nat
  note_density : ℚ
  avg_pitch : ℚ
  avg_pitch_change : ℚ
  name_score : ℚ
  melody_score : ℚ
  instrument : Instrument
  deriving DecidableEq

/-- Sum of an integer list (Python `sum`). -/
def int_sum (l : List Int) : Int := l.foldl (· + ·) 0

/-- `pitches = [note.pitch for note in instrument.notes]` (line 47). -/
def pitches_of (instrument : Instrument) : List Int :=
  instrument.notes.map (fun note => note.pitch)

/-- `pitch_changes = [abs(pitches[i] - pitches[i-1]) for i in range(1, len(pitches))]`
(line 51). -/
def pitch_changes_of (instrument : Instrument) : List Int :=
  List.zipWith (fun prev next => ((next - prev).natAbs : Int))
    (pitches_of instrument) (pitches_of instrument).tail

/-- The body of the collection loop of `identify_melody_track`
(lines 42-74): features of instrument number `i` given the document's
total duration. -/
def build_track_info (total_duration : ℚ) (i : Nat) (instrument : Instrument) : TrackInfo :=
  { index := i
    name := instrument.name
    program := instrument.program
    is_drum := instrument.is_drum
    num_notes := instrument.notes.length
    note_density :=
      if total_duration > 0 then (instrument.notes.length : ℚ) / total_duration else 0
    avg_pitch :=
      if (pitches_of instrument).isEmpty then 0
      else (int_sum (pitches_of instrument) : ℚ) / ((pitches_of instrument).length : ℚ)
    avg_pitch_change :=
      if (pitch_changes_of instrument).isEmpty then 0
      else (int_sum (pitch_changes_of instrument) : ℚ) / ((pitch_changes_of instrument).length : ℚ)
    name_score := if has_melody_keyword instrument.name then 10 else 0
    melody_score := 0
    instrument := instrument }

/-- One step of the collection loop: skip empty tracks (line 35) and drum
tracks (line 39), otherwise build the record. -/
def keep_candidate (total_duration : ℚ) (p : Nat × Instrument) : Option TrackInfo :=
  if p.2.notes.length = 0 then none
  else if p.2.is_drum then none
  else some (build_track_info total_duration p.1 p.2)

/-- The collection loop (lines 33-74): skip empty and drum tracks, build a
record for every other track. -/
def collect_track_info (midi_data : PrettyMIDI) : List TrackInfo :=
  midi_data.instruments.enum.filterMap (keep_candidate midi_data.get_end_time)

/-- `max(t['note_density'] for t in track_info) if track_info else 1`
(line 80). -/
def max_density_of (track_info : List TrackInfo) : ℚ :=
  match track_info with
  | [] => 1
  | t :: rest => rest.foldl (fun a u => max a u.note_density) t.note_density

/-- Lines 83-87: the maximum `avg_pitch_change` among tracks with a strictly
positive value, or `1` if no track has one. -/
def max_pitch_change_of (track_info : List TrackInfo) : ℚ :=
  match (track_info.filter (fun t => decide (t.avg_pitch_change > 0))).map
      (fun t => t.avg_pitch_change) with
  | [] => 1
  | x :: rest => rest.foldl max x

/-- `density_score` (line 91). -/
def density_score_of (max_density : ℚ) (track : TrackInfo) : ℚ :=
  if max_density > 0 then 0.4 * track.note_density / max_density else 0

/-- `pitch_score` (line 94). -/
def pitch_score_of (track : TrackInfo) : ℚ :=
  if track.avg_pitch > 40 then 0.3 * (track.avg_pitch - 40) / 40 else 0

/-- `change_score` (line 97). -/
def change_score_of (max_pitch_change : ℚ) (track : TrackInfo) : ℚ :=
  if max_pitch_change > 0 ∧ track.avg_pitch_change > 0 then
    0.3 * (track.avg_pitch_change / max_pitch_change)
  else 0

/-- The scoring loop body (lines 89-101): fill in `melody_score`. -/
def score_track (max_density max_pitch_change : ℚ) (track : TrackInfo) : TrackInfo :=
  { track with
    melody_score := track.name_score + density_score_of max_density track +
      pitch_score_of track + change_score_of max_pitch_change track }

/-- The candidate records with their scores filled in, in collection order. -/
def scored_track_info (midi_data : PrettyMIDI) : List TrackInfo :=
  let track_info := collect_track_info midi_data
  track_info.map (score_track (max_density_of track_info) (max_pitch_change_of track_info))

/-- Insert `x` into a list sorted by `melody_score` descending, after every
element with a strictly larger score and before every element with a score
at most `x`'s.  Inserting each element of the input, left to right, into the
sorted suffix reproduces exactly the stable descending sort performed by
`track_info.sort(key=melody_score, reverse=True)`: ties keep input order. -/
def insort_track (x : TrackInfo) : List TrackInfo → List TrackInfo
  | [] => [x]
  | y :: ys => if x.melody_score < y.melody_score then y :: insort_track x ys else x :: y :: ys

/-- Stable sort by `melody_score` descending (the semantics of Python's
stable `list.sort` with `reverse=True`). -/
def sort_by_score_desc : List TrackInfo → List TrackInfo
  | [] => []
  | x :: xs => insort_track x (sort_by_score_desc xs)

/-- The sorted candidate list (line 106). -/
def sorted_track_info (midi_data : PrettyMIDI) : List TrackInfo :=
  sort_by_score_desc (scored_track_info midi_data)

/-- `identify_melody_track` (lines 19-109): `None` when no candidate
remains, otherwise the instrument of the best-scoring record. -/
def identify_melody_track (midi_data : PrettyMIDI) : Option Instrument :=
  let track_info := collect_track_info midi_data
  if track_info.isEmpty then none
  else (sorted_track_info midi_data).head?.map (fun t => t.instrument)

/-- `extract_melody` (lines 111-157), from an already-parsed document to
the document written on success: `none` models `return False` with no
output file. -/
def extract_melody (midi_data : PrettyMIDI) : Option PrettyMIDI :=
  match identify_melody_track midi_data with
  | none => none
  | some melody_track =>
    let initial_tempo : ℚ :=
      match midi_data.tempos with
      | [] => 120
      | t :: _ => t
    let new_instrument : Instrument :=
      { program := melody_track.program
        is_drum := false
        name := "Melody"
        notes := melody_track.notes.map (fun note =>
          { velocity := note.velocity
            pitch := note.pitch
            start := note.start
            end_ := note.end_ }) }
    some { resolution := midi_data.resolution
           tempos := [initial_tempo]
           instruments := [new_instrument] }

/-- The result of trying to load one MIDI file: a parsed document, or the
message of the exception the parse raised. -/
inductive LoadResult where
  | parsed (midi_data : PrettyMIDI)
  | failed (msg : String)
  deriving DecidableEq

/-- The per-file boundary of `extract_melody` (lines 111-163): every
failure, a parse error included, becomes `(false, message)`; success is
`(true, "")`.  The `try/except Exception` block is modelled by totality:
every `LoadResult` is mapped to a boolean plus a message. -/
def extract_melody_file (input : LoadResult) : Bool × String :=
  match input with
  | .failed e => (false, "处理文件时出错: " ++ e)
  | .parsed midi_data =>
    match extract_melody midi_data with
    | none => (false, "警告：没有找到有效的旋律轨道")
    | some _ => (true, "")

/-- The counters of `process_directory`. -/
structure Stats where
  total : Nat
  success : Nat
  failed : Nat
  deriving DecidableEq

/-- The per-file body of the `process_directory` loop (lines 181-198):
bump `total`, then `success` or `failed` according to the result. -/
def process_step (stats : Stats) (f : LoadResult) : Stats :=
  if (extract_melody_file f).1 then
    { stats with total := stats.total + 1, success := stats.success + 1 }
  else
    { stats with total := stats.total + 1, failed := stats.failed + 1 }

/-- `process_directory` (lines 165-204) over the per-file load results. -/
def process_directory (files : List LoadResult) : Stats :=
  files.foldl process_step { total := 0, success := 0, failed := 0 }

/-! ### The mido model used by `convert_to_trio.py` -/

/-- A `mido` message, restricted to the attributes `convert_to_trio` reads:
its `type` string, its `channel` attribute when it has one (`none` models
`hasattr(msg, "channel")` being false, as for meta messages), the `name`
carried by `track_name` meta messages, and its delta `time`. -/
structure MidoMsg where
  mtype : String
  channel : Option Int
  name : String
  time : Int
  deriving DecidableEq

/-- A `mido.MidiFile`: `ticks_per_beat` plus the track list, each track a
message list. -/
structure MidiFile where
  ticks_per_beat : Int
  tracks : List (List MidoMsg)
  deriving DecidableEq

/-- `track_names = ["Drums", "Melody", "Bass"]` (line 37). -/
def trio_track_names : List String := ["Drums", "Melody", "Bass"]

/-- The inner message loop of `convert_to_trio` (lines 42-51): rename
`track_name` messages, force channel 9 on channel-carrying messages of the
first track, and record whether a `track_name` message was seen.  The
Python loop appends left to right; this recursion produces the same list
and the same flag (the flag is `true` iff any message had type
`track_name`). -/
def convert_msgs (is_first : Bool) (new_name : String) : List MidoMsg → List MidoMsg × Bool
  | [] => ([], false)
  | msg :: rest =>
    if msg.mtype == "track_name" then
      ({ mtype := "track_name", channel := none, name := new_name, time := msg.time }
        :: (convert_msgs is_first new_name rest).1, true)
    else
      ((if is_first && msg.channel.isSome then { msg with channel := some 9 } else msg)
        :: (convert_msgs is_first new_name rest).1,
       (convert_msgs is_first new_name rest).2)

/-- One track of `convert_to_trio` (lines 38-55): run the message loop and
prepend a fresh `track_name` meta message when none was present
(`new_track.insert(0, ...)`, line 54). -/
def convert_track (i : Nat) (track : List MidoMsg) : List MidoMsg :=
  let new_name := trio_track_names.getD i ""
  let r := convert_msgs (i == 0) new_name track
  if r.2 then r.1
  else { mtype := "track_name", channel := none, name := new_name, time := 0 } :: r.1

/-- `convert_to_trio` (lines 11-71) on an already-parsed file: `None` when
the track count is not 3 (line 30), otherwise the relabelled three-track
file.  `ticks_per_beat` is copied (line 35); file output is the returned
value. -/
def convert_to_trio (midi_data : MidiFile) : Option MidiFile :=
  if midi_data.tracks.length ≠ 3 then none
  else some { ticks_per_beat := midi_data.ticks_per_beat
              tracks := midi_data.tracks.enum.map (fun p => convert_track p.1 p.2) }

/-! ### Generic arithmetic and list lemmas -/

theorem foldl_add_shift (l : List Int) (a : Int) :
    l.foldl (· + ·) a = a + l.foldl (· + ·) 0 := by
  induction l generalizing a with
  | nil => simp
  | cons x xs ih =>
    simp only [List.foldl_cons]
    rw [ih (a + x), ih (0 + x)]
    ring

theorem int_sum_cons (x : Int) (l : List Int) : int_sum (x :: l) = x + int_sum l := by
  simp only [int_sum, List.foldl_cons]
  rw [foldl_add_shift]
  ring

theorem int_sum_nonneg (l : List Int) (h : ∀ x ∈ l, 0 ≤ x) : 0 ≤ int_sum l := by
  induction l with
  | nil => simp [int_sum]
  | cons x xs ih =>
    rw [int_sum_cons]
    have hx := h x (by simp)
    have hxs := ih (fun y hy => h y (List.mem_cons_of_mem x hy))
    omega

theorem int_sum_le_card_mul (l : List Int) (c : Int) (h : ∀ x ∈ l, x ≤ c) :
    int_sum l ≤ c * l.length := by
  induction l with
  | nil => simp [int_sum]
  | cons x xs ih =>
    rw [int_sum_cons]
    have hx := h x (by simp)
    have hxs := ih (fun y hy => h y (List.mem_cons_of_mem x hy))
    have hc : c * ((x :: xs).length : Int) = c * (xs.length : Int) + c := by
      simp [List.length_cons]
      ring
    rw [hc]
    omega

theorem le_foldl_max (l : List ℚ) (a : ℚ) : a ≤ l.foldl max a := by
  induction l generalizing a with
  | nil => exact le_refl a
  | cons x xs ih => exact le_trans (le_max_left a x) (ih (max a x))

theorem mem_le_foldl_max (l : List ℚ) : ∀ (a x : ℚ), x ∈ l → x ≤ l.foldl max a := by
  induction l with
  | nil => intro a x hx; simp at hx
  | cons y ys ih =>
    intro a x hx
    rcases List.mem_cons.mp hx with h | h
    · subst h
      exact le_trans (le_max_right a x) (le_foldl_max ys (max a x))
    · exact ih (max a y) x h

/-! ### Field lemmas for the feature records -/

@[simp] theorem build_index (td : ℚ) (i : Nat) (ins : Instrument) :
    (build_track_info td i ins).index = i := rfl

@[simp] theorem build_name (td : ℚ) (i : Nat) (ins : Instrument) :
    (build_track_info td i ins).name = ins.name := rfl

@[simp] theorem build_program (td : ℚ) (i : Nat) (ins : Instrument) :
    (build_track_info td i ins).program = ins.program := rfl

@[simp] theorem build_is_drum (td : ℚ) (i : Nat) (ins : Instrument) :
    (build_track_info td i ins).is_drum = ins.is_drum := rfl

@[simp] theorem build_num_notes (td : ℚ) (i : Nat) (ins : Instrument) :
    (build_track_info td i ins).num_notes = ins.notes.length := rfl

@[simp] theorem build_instrument (td : ℚ) (i : Nat) (ins : Instrument) :
    (build_track_info td i ins).instrument = ins := rfl

@[simp] theorem build_name_score (td : ℚ) (i : Nat) (ins : Instrument) :
    (build_track_info td i ins).name_score =
      (if has_melody_keyword ins.name then (10 : ℚ) else 0) := rfl

@[simp] theorem build_note_density (td : ℚ) (i : Nat) (ins : Instrument) :
    (build_track_info td i ins).note_density =
      (if td > 0 then (ins.notes.length : ℚ) / td else 0) := rfl

@[simp] theorem build_avg_pitch (td : ℚ) (i : Nat) (ins : Instrument) :
    (build_track_info td i ins).avg_pitch =
      (if (pitches_of ins).isEmpty then 0
       else (int_sum (pitches_of ins) : ℚ) / ((pitches_of ins).length : ℚ)) := rfl

@[simp] theorem build_avg_pitch_change (td : ℚ) (i : Nat) (ins : Instrument) :
    (build_track_info td i ins).avg_pitch_change =
      (if (pitch_changes_of ins).isEmpty then 0
       else (int_sum (pitch_changes_of ins) : ℚ) / ((pitch_changes_of ins).length : ℚ)) := rfl

@[simp] theorem score_track_index (md mpc : ℚ) (t : TrackInfo) :
    (score_track md mpc t).index = t.index := rfl

@[simp] theorem score_track_name (md mpc : ℚ) (t : TrackInfo) :
    (score_track md mpc t).name = t.name := rfl

@[simp] theorem score_track_program (md mpc : ℚ) (t : TrackInfo) :
    (score_track md mpc t).program = t.program := rfl

@[simp] theorem score_track_is_drum (md mpc : ℚ) (t : TrackInfo) :
    (score_track md mpc t).is_drum = t.is_drum := rfl

@[simp] theorem score_track_note_density (md mpc : ℚ) (t : TrackInfo) :
    (score_track md mpc t).note_density = t.note_density := rfl

@[simp] theorem score_track_avg_pitch (md mpc : ℚ) (t : TrackInfo) :
    (score_track md mpc t).avg_pitch = t.avg_pitch := rfl

@[simp] theorem score_track_avg_pitch_change (md mpc : ℚ) (t : TrackInfo) :
    (score_track md mpc t).avg_pitch_change = t.avg_pitch_change := rfl

@[simp] theorem score_track_name_score (md mpc : ℚ) (t : TrackInfo) :
    (score_track md mpc t).name_score = t.name_score := rfl

@[simp] theorem score_track_instrument (md mpc : ℚ) (t : TrackInfo) :
    (score_track md mpc t).instrument = t.instrument := rfl

theorem score_track_melody_score (md mpc : ℚ) (t : TrackInfo) :
    (score_track md mpc t).melody_score =
      t.name_score + density_score_of md t + pitch_score_of t + change_score_of mpc t := rfl

/-! ### Bounds on the individual score terms -/

theorem density_score_of_nonneg (md : ℚ) (t : TrackInfo) (h : 0 ≤ t.note_density) :
    0 ≤ density_score_of md t := by
  unfold density_score_of
  split
  · next hmd =>
    exact div_nonneg (mul_nonneg (by norm_num) h) (le_of_lt hmd)
  · exact le_refl 0

theorem density_score_of_le (md : ℚ) (t : TrackInfo) (h : t.note_density ≤ md) :
    density_score_of md t ≤ 2/5 := by
  unfold density_score_of
  split
  · next hmd =>
    rw [div_le_iff₀ hmd]
    nlinarith
  · norm_num

theorem pitch_score_of_nonneg (t : TrackInfo) : 0 ≤ pitch_score_of t := by
  unfold pitch_score_of
  split
  · next hp =>
    exact div_nonneg (mul_nonneg (by norm_num) (by linarith)) (by norm_num)
  · exact le_refl 0

theorem pitch_score_of_le (t : TrackInfo) (h : t.avg_pitch ≤ 127) :
    pitch_score_of t ≤ 261/400 := by
  unfold pitch_score_of
  split
  · next hp =>
    rw [div_le_iff₀ (by norm_num : (0:ℚ) < 40)]
    nlinarith
  · norm_num

theorem change_score_of_nonneg (mpc : ℚ) (t : TrackInfo) : 0 ≤ change_score_of mpc t := by
  unfold change_score_of
  split
  · next h =>
    exact mul_nonneg (by norm_num) (div_nonneg (le_of_lt h.2) (le_of_lt h.1))
  · exact le_refl 0

theorem change_score_of_le (mpc : ℚ) (t : TrackInfo)
    (hle : 0 < t.avg_pitch_change → t.avg_pitch_change ≤ mpc) :
    change_score_of mpc t ≤ 3/10 := by
  unfold change_score_of
  split
  · next h =>
    have hmax := hle h.2
    have hdiv : t.avg_pitch_change / mpc ≤ 1 := by
      rw [div_le_one h.1]
      exact hmax
    nlinarith
  · norm_num

/-! ### Monotonicity of the score terms -/

theorem density_score_of_strict_mono (md : ℚ) (a b : TrackInfo) (hmd : 0 < md)
    (h : b.note_density < a.note_density) :
    density_score_of md b < density_score_of md a := by
  unfold density_score_of
  rw [if_pos hmd, if_pos hmd, div_lt_div_iff₀ hmd hmd]
  nlinarith

theorem pitch_score_of_mono (a b : TrackInfo) (h : b.avg_pitch ≤ a.avg_pitch) :
    pitch_score_of b ≤ pitch_score_of a := by
  by_cases hb : (40:ℚ) < b.avg_pitch
  · have ha : (40:ℚ) < a.avg_pitch := lt_of_lt_of_le hb h
    unfold pitch_score_of
    rw [if_pos hb, if_pos ha, div_le_div_iff₀ (by norm_num : (0:ℚ) < 40) (by norm_num : (0:ℚ) < 40)]
    nlinarith
  · have hzero : pitch_score_of b = 0 := by
      unfold pitch_score_of
      rw [if_neg hb]
    rw [hzero]
    exact pitch_score_of_nonneg a

theorem change_score_of_mono (mpc : ℚ) (a b : TrackInfo) (hmpc : 0 < mpc)
    (h : b.avg_pitch_change ≤ a.avg_pitch_change) :
    change_score_of mpc b ≤ change_score_of mpc a := by
  by_cases hbp : (0:ℚ) < b.avg_pitch_change
  · have hap : (0:ℚ) < a.avg_pitch_change := lt_of_lt_of_le hbp h
    unfold change_score_of
    rw [if_pos ⟨hmpc, hbp⟩, if_pos ⟨hmpc, hap⟩]
    have hdiv : b.avg_pitch_change / mpc ≤ a.avg_pitch_change / mpc := by
      rw [div_le_div_iff₀ hmpc hmpc]
      nlinarith
    nlinarith
  · have hzero : change_score_of mpc b = 0 := by
      unfold change_score_of
      rw [if_neg]
      intro hc
      exact hbp hc.2
    rw [hzero]
    exact change_score_of_nonneg mpc a

/-! ### Membership in the candidate list -/

theorem keep_candidate_eq_some (td : ℚ) (p : Nat × Instrument) (t : TrackInfo) :
    keep_candidate td p = some t ↔
      p.2.notes.length ≠ 0 ∧ p.2.is_drum = false ∧ t = build_track_info td p.1 p.2 := by
  unfold keep_candidate
  constructor
  · intro h
    by_cases h1 : p.2.notes.length = 0
    · rw [if_pos h1] at h
      simp at h
    · rw [if_neg h1] at h
      by_cases h2 : p.2.is_drum
      · rw [if_pos h2] at h
        simp at h
      · rw [if_neg h2] at h
        exact ⟨h1, by simpa using h2, (Option.some_inj.mp h).symm⟩
  · rintro ⟨h1, h2, rfl⟩
    rw [if_neg h1, if_neg (by simp [h2])]

theorem mem_collect_iff (m : PrettyMIDI) (t : TrackInfo) :
    t ∈ collect_track_info m ↔
      ∃ p ∈ m.instruments.enum, p.2.notes.length ≠ 0 ∧ p.2.is_drum = false ∧
        t = build_track_info m.get_end_time p.1 p.2 := by
  unfold collect_track_info
  rw [List.mem_filterMap]
  constructor
  · rintro ⟨p, hp, h⟩
    exact ⟨p, hp, (keep_candidate_eq_some _ p t).mp h⟩
  · rintro ⟨p, hp, h⟩
    exact ⟨p, hp, (keep_candidate_eq_some _ p t).mpr h⟩

theorem snd_mem_of_mem_enum {l : List Instrument} {p : Nat × Instrument}
    (h : p ∈ l.enum) : p.2 ∈ l := by
  have hmap := List.enumFrom_map_snd 0 l
  rw [← hmap]
  exact List.mem_map_of_mem Prod.snd h

/-! ### Nonnegativity and bounds of candidate features -/

theorem zipWith_natAbs_nonneg (l1 l2 : List Int) :
    ∀ x ∈ List.zipWith (fun prev next => ((next - prev).natAbs : Int)) l1 l2, 0 ≤ x := by
  induction l1 generalizing l2 with
  | nil => intro x hx; simp at hx
  | cons a as ih =>
    cases l2 with
    | nil => intro x hx; simp at hx
    | cons b bs =>
      intro x hx
      rcases List.mem_cons.mp hx with h | h
      · subst h
        exact Int.natCast_nonneg _
      · exact ih bs x h

theorem collect_note_density_nonneg (m : PrettyMIDI) (t : TrackInfo)
    (h : t ∈ collect_track_info m) : 0 ≤ t.note_density := by
  obtain ⟨p, _, _, _, rfl⟩ := (mem_collect_iff m t).mp h
  rw [build_note_density]
  split
  · next htd => exact div_nonneg (Nat.cast_nonneg _) (le_of_lt htd)
  · exact le_refl 0

theorem collect_apc_nonneg (m : PrettyMIDI) (t : TrackInfo)
    (h : t ∈ collect_track_info m) : 0 ≤ t.avg_pitch_change := by
  obtain ⟨p, _, _, _, rfl⟩ := (mem_collect_iff m t).mp h
  rw [build_avg_pitch_change]
  split
  · exact le_refl 0
  · have hsum : 0 ≤ int_sum (pitch_changes_of p.2) :=
      int_sum_nonneg _ (zipWith_natAbs_nonneg _ _)
    exact div_nonneg (by exact_mod_cast hsum) (Nat.cast_nonneg _)

theorem collect_name_score_eq (m : PrettyMIDI) (t : TrackInfo)
    (h : t ∈ collect_track_info m) :
    t.name_score = (if has_melody_keyword t.instrument.name then (10:ℚ) else 0) := by
  obtain ⟨p, _, _, _, rfl⟩ := (mem_collect_iff m t).mp h
  rw [build_name_score, build_instrument]

theorem collect_name_eq (m : PrettyMIDI) (t : TrackInfo)
    (h : t ∈ collect_track_info m) : t.name = t.instrument.name := by
  obtain ⟨p, _, _, _, rfl⟩ := (mem_collect_iff m t).mp h
  rw [build_name, build_instrument]

theorem collect_avg_pitch_le (m : PrettyMIDI) (t : TrackInfo)
    (h : t ∈ collect_track_info m)
    (hp : ∀ n ∈ t.instrument.notes, n.pitch ≤ 127) : t.avg_pitch ≤ 127 := by
  obtain ⟨p, hpmem, hne, hdrum, rfl⟩ := (mem_collect_iff m t).mp h
  rw [build_instrument] at hp
  rw [build_avg_pitch]
  split
  · norm_num
  · next hne2 =>
    have hlen : 0 < ((pitches_of p.2).length : ℚ) := by
      have : (pitches_of p.2) ≠ [] := by
        intro hnil
        rw [hnil] at hne2
        simp at hne2
      have := List.length_pos.mpr this
      exact_mod_cast this
    rw [div_le_iff₀ hlen]
    have hall : ∀ x ∈ pitches_of p.2, x ≤ 127 := by
      intro x hx
      obtain ⟨note, hnote, rfl⟩ := List.mem_map.mp hx
      exact hp note hnote
    have := int_sum_le_card_mul (pitches_of p.2) 127 hall
    exact_mod_cast this

/-! ### The two maxima of the scoring loop -/

theorem note_density_le_max_density (track_info : List TrackInfo) (t : TrackInfo)
    (h : t ∈ track_info) : t.note_density ≤ max_density_of track_info := by
  cases track_info with
  | nil => simp at h
  | cons t0 rest =>
    show t.note_density ≤ rest.foldl (fun a u => max a u.note_density) t0.note_density
    rw [← List.foldl_map (fun u : TrackInfo => u.note_density) max]
    rcases List.mem_cons.mp h with h0 | hr
    · subst h0
      exact le_foldl_max _ _
    · exact mem_le_foldl_max _ _ _ (List.mem_map_of_mem _ hr)

theorem max_density_pos (track_info : List TrackInfo) (t : TrackInfo) (h : t ∈ track_info)
    (hd : 0 < t.note_density) : 0 < max_density_of track_info :=
  lt_of_lt_of_le hd (note_density_le_max_density _ _ h)

theorem max_pitch_change_pos (track_info : List TrackInfo) :
    0 < max_pitch_change_of track_info := by
  unfold max_pitch_change_of
  split
  · norm_num
  · next x rest heq =>
    have hx : x ∈ (track_info.filter (fun t => decide (t.avg_pitch_change > 0))).map
        (fun t => t.avg_pitch_change) := by
      rw [heq]
      exact List.mem_cons_self _ _
    obtain ⟨u, hu, hux⟩ := List.mem_map.mp hx
    have hdec := (List.mem_filter.mp hu).2
    have hxpos : 0 < x := by
      rw [← hux]
      exact of_decide_eq_true hdec
    exact lt_of_lt_of_le hxpos (le_foldl_max rest x)

theorem apc_le_max_pitch_change (track_info : List TrackInfo) (t : TrackInfo)
    (h : t ∈ track_info) (hpos : 0 < t.avg_pitch_change) :
    t.avg_pitch_change ≤ max_pitch_change_of track_info := by
  have hmem : t.avg_pitch_change ∈
      (track_info.filter (fun u => decide (u.avg_pitch_change > 0))).map
        (fun u => u.avg_pitch_change) :=
    List.mem_map_of_mem _ (List.mem_filter.mpr ⟨h, decide_eq_true hpos⟩)
  unfold max_pitch_change_of
  split
  · next heq =>
    rw [heq] at hmem
    simp at hmem
  · next x rest heq =>
    rw [heq] at hmem
    rcases List.mem_cons.mp hmem with h0 | hr
    · rw [h0]
      exact le_foldl_max rest x
    · exact mem_le_foldl_max rest x _ hr

/-! ### The scored candidate list -/

theorem mem_scored_iff (m : PrettyMIDI) (u : TrackInfo) :
    u ∈ scored_track_info m ↔ ∃ t ∈ collect_track_info m,
      u = score_track (max_density_of (collect_track_info m))
        (max_pitch_change_of (collect_track_info m)) t := by
  show u ∈ (collect_track_info m).map _ ↔ _
  rw [List.mem_map]
  constructor
  · rintro ⟨t, ht, hu⟩
    exact ⟨t, ht, hu.symm⟩
  · rintro ⟨t, ht, hu⟩
    exact ⟨t, ht, hu.symm⟩

/-! ### The stable descending sort -/

theorem insort_cons_lt (x y : TrackInfo) (ys : List TrackInfo)
    (hc : x.melody_score < y.melody_score) :
    insort_track x (y :: ys) = y :: insort_track x ys := by
  rw [show insort_track x (y :: ys) =
      (if x.melody_score < y.melody_score then y :: insort_track x ys else x :: y :: ys)
    from rfl, if_pos hc]

theorem insort_cons_ge (x y : TrackInfo) (ys : List TrackInfo)
    (hc : ¬ x.melody_score < y.melody_score) :
    insort_track x (y :: ys) = x :: y :: ys := by
  rw [show insort_track x (y :: ys) =
      (if x.melody_score < y.melody_score then y :: insort_track x ys else x :: y :: ys)
    from rfl, if_neg hc]

theorem mem_insort (x : TrackInfo) (l : List TrackInfo) (z : TrackInfo) :
    z ∈ insort_track x l ↔ z = x ∨ z ∈ l := by
  induction l with
  | nil =>
    show z ∈ [x] ↔ _
    simp
  | cons y ys ih =>
    by_cases hc : x.melody_score < y.melody_score
    · rw [insort_cons_lt x y ys hc]
      simp only [List.mem_cons, ih]
      tauto
    · rw [insort_cons_ge x y ys hc]
      simp only [List.mem_cons]

theorem insort_perm (x : TrackInfo) (l : List TrackInfo) :
    List.Perm (insort_track x l) (x :: l) := by
  induction l with
  | nil => exact List.Perm.refl _
  | cons y ys ih =>
    by_cases hc : x.melody_score < y.melody_score
    · rw [insort_cons_lt x y ys hc]
      exact List.Perm.trans (List.Perm.cons y ih) (List.Perm.swap x y ys)
    · rw [insort_cons_ge x y ys hc]

theorem sort_perm (l : List TrackInfo) : List.Perm (sort_by_score_desc l) l := by
  induction l with
  | nil => exact List.Perm.refl _
  | cons x xs ih =>
    show List.Perm (insort_track x (sort_by_score_desc xs)) (x :: xs)
    exact List.Perm.trans (insort_perm _ _) (List.Perm.cons x ih)

/-- The order the sorted candidate list satisfies: strictly larger score
first, ties broken by smaller original track index. -/
def rank_rel (a b : TrackInfo) : Prop :=
  b.melody_score < a.melody_score ∨
    (a.melody_score = b.melody_score ∧ a.index < b.index)

theorem insort_pairwise (x : TrackInfo) (m : List TrackInfo)
    (hm : m.Pairwise rank_rel) (hidx : ∀ y ∈ m, x.index < y.index) :
    (insort_track x m).Pairwise rank_rel := by
  induction m with
  | nil =>
    show ([x] : List TrackInfo).Pairwise rank_rel
    simp
  | cons y ys ih =>
    rw [List.pairwise_cons] at hm
    obtain ⟨hy, hys⟩ := hm
    by_cases hc : x.melody_score < y.melody_score
    · rw [insort_cons_lt x y ys hc, List.pairwise_cons]
      constructor
      · intro w hw
        rcases (mem_insort x ys w).mp hw with rfl | hwys
        · exact Or.inl hc
        · exact hy w hwys
      · exact ih hys (fun z hz => hidx z (List.mem_cons_of_mem y hz))
    · rw [insort_cons_ge x y ys hc, List.pairwise_cons]
      constructor
      · intro w hw
        rcases List.mem_cons.mp hw with rfl | hwys
        · rcases lt_or_eq_of_le (not_lt.mp hc) with hlt | heq
          · exact Or.inl hlt
          · exact Or.inr ⟨heq.symm, hidx w (List.mem_cons_self _ _)⟩
        · have hw_le : w.melody_score ≤ y.melody_score := by
            rcases hy w hwys with hlt | heq
            · exact le_of_lt hlt
            · exact le_of_eq heq.1.symm
          have hyx : y.melody_score ≤ x.melody_score := not_lt.mp hc
          rcases lt_or_eq_of_le (le_trans hw_le hyx) with hlt | heq
          · exact Or.inl hlt
          · exact Or.inr ⟨heq.symm, hidx w (List.mem_cons_of_mem y hwys)⟩
      · rw [List.pairwise_cons]
        exact ⟨hy, hys⟩

theorem sort_pairwise (l : List TrackInfo)
    (hl : l.Pairwise (fun a b => a.index < b.index)) :
    (sort_by_score_desc l).Pairwise rank_rel := by
  induction l with
  | nil =>
    show ([] : List TrackInfo).Pairwise rank_rel
    simp
  | cons x xs ih =>
    rw [List.pairwise_cons] at hl
    obtain ⟨hx, hxs⟩ := hl
    show (insort_track x (sort_by_score_desc xs)).Pairwise rank_rel
    apply insort_pairwise x _ (ih hxs)
    intro y hy
    exact hx y ((sort_perm xs).mem_iff.mp hy)

/-! ### Indices strictly increase along the candidate lists -/

theorem le_fst_of_mem_enumFrom {q : Nat × Instrument} (l : List Instrument) (n : Nat)
    (h : q ∈ l.enumFrom n) : n ≤ q.1 := by
  induction l generalizing n with
  | nil => simp at h
  | cons x xs ih =>
    have h2 : q ∈ (n, x) :: xs.enumFrom (n + 1) := h
    rcases List.mem_cons.mp h2 with rfl | hmem
    · exact le_refl n
    · exact le_trans (Nat.le_succ n) (ih (n + 1) hmem)

theorem enumFrom_fst_lt (l : List Instrument) (n : Nat) :
    (l.enumFrom n).Pairwise (fun p q => p.1 < q.1) := by
  induction l generalizing n with
  | nil => simp
  | cons x xs ih =>
    show ((n, x) :: xs.enumFrom (n + 1)).Pairwise _
    rw [List.pairwise_cons]
    constructor
    · intro q hq
      have := le_fst_of_mem_enumFrom xs (n + 1) hq
      omega
    · exact ih (n + 1)

theorem scored_pairwise_index (m : PrettyMIDI) :
    (scored_track_info m).Pairwise (fun a b => a.index < b.index) := by
  have h1 : (m.instruments.enum).Pairwise (fun p q => p.1 < q.1) :=
    enumFrom_fst_lt m.instruments 0
  have h2 : (collect_track_info m).Pairwise (fun a b => a.index < b.index) := by
    unfold collect_track_info
    rw [List.pairwise_filterMap]
    refine h1.imp ?_
    intro p q hpq b hb b' hb'
    obtain ⟨_, _, rfl⟩ := (keep_candidate_eq_some _ p b).mp (Option.mem_def.mp hb)
    obtain ⟨_, _, rfl⟩ := (keep_candidate_eq_some _ q b').mp (Option.mem_def.mp hb')
    simpa using hpq
  show ((collect_track_info m).map _).Pairwise _
  rw [List.pairwise_map]
  refine h2.imp ?_
  intro a b h
  simpa using h

/-! ### Consequences of the pairwise order -/

theorem pairwise_head_max (l : List TrackInfo) (h : l.Pairwise rank_rel)
    (x : TrackInfo) (hx : l.head? = some x) :
    ∀ u ∈ l, u.melody_score ≤ x.melody_score := by
  cases l with
  | nil => simp at hx
  | cons y ys =>
    have hxy : y = x := Option.some_inj.mp hx
    subst hxy
    rw [List.pairwise_cons] at h
    intro u hu
    rcases List.mem_cons.mp hu with rfl | hu
    · exact le_refl _
    · rcases h.1 u hu with hlt | heq
      · exact le_of_lt hlt
      · exact le_of_eq heq.1.symm

theorem pairwise_position_lt (l : List TrackInfo) (h : l.Pairwise rank_rel)
    (a b : TrackInfo) (hab : b.melody_score < a.melody_score) :
    ∀ (i j : Nat) (hi : i < l.length) (hj : j < l.length),
      l.get ⟨i, hi⟩ = a → l.get ⟨j, hj⟩ = b → i < j := by
  intro i j hi hj ha hb
  rw [List.get_eq_getElem] at ha hb
  by_contra hij
  push_neg at hij
  rcases lt_or_eq_of_le hij with hlt | heq
  · have hrel := List.pairwise_iff_getElem.mp h j i hj hi hlt
    rw [ha, hb] at hrel
    rcases hrel with hlt2 | heq2
    · exact absurd hlt2 (lt_asymm hab)
    · exact absurd heq2.1 (ne_of_lt hab)
  · subst heq
    rw [ha] at hb
    subst hb
    exact absurd hab (lt_irrefl _)

/-! ### Lemmas about the trio relabeling -/

theorem convert_msgs_first_channel (nm : String) (msgs : List MidoMsg) :
    ∀ m ∈ (convert_msgs true nm msgs).1, ∀ c : Int, m.channel = some c → c = 9 := by
  induction msgs with
  | nil =>
    intro m hm
    simp [convert_msgs] at hm
  | cons msg rest ih =>
    intro m hm c hc
    by_cases ht : msg.mtype == "track_name"
    · simp only [convert_msgs] at hm
      rw [if_pos ht] at hm
      rcases List.mem_cons.mp hm with rfl | hmem
      · simp at hc
      · exact ih m hmem c hc
    · simp only [convert_msgs] at hm
      rw [if_neg ht] at hm
      rcases List.mem_cons.mp hm with rfl | hmem
      · by_cases hs : msg.channel.isSome
        · rw [if_pos (by simp [hs])] at hc
          simp at hc
          omega
        · rw [if_neg (by simp [hs])] at hc
          rw [Option.not_isSome_iff_eq_none.mp hs] at hc
          simp at hc
      · exact ih m hmem c hc

theorem convert_msgs_rest_channels (nm : String) :
    ∀ (msgs : List MidoMsg),
      (∀ m ∈ msgs, m.mtype = "track_name" → m.channel = none) →
      (convert_msgs false nm msgs).1.filterMap (fun m => m.channel) =
        msgs.filterMap (fun m => m.channel) := by
  intro msgs
  induction msgs with
  | nil => intro _; rfl
  | cons msg rest ih =>
    intro hmeta
    have hrest := ih (fun m hm h => hmeta m (List.mem_cons_of_mem msg hm) h)
    by_cases ht : msg.mtype == "track_name"
    · have hchan : msg.channel = none :=
        hmeta msg (List.mem_cons_self _ _) (by simpa using ht)
      simp only [convert_msgs]
      rw [if_pos ht, List.filterMap_cons, List.filterMap_cons]
      simp only [hchan]
      exact hrest
    · simp only [convert_msgs]
      rw [if_neg ht, List.filterMap_cons, List.filterMap_cons]
      have hhead :
          (if (false && msg.channel.isSome) = true then { msg with channel := some 9 }
           else msg) = msg := by
        simp
      rw [hhead]
      cases hch : msg.channel with
      | none => simpa [hch] using hrest
      | some c => simpa [hch] using hrest

theorem convert_track_first_channel (track : List MidoMsg) :
    ∀ m ∈ convert_track 0 track, ∀ c : Int, m.channel = some c → c = 9 := by
  intro m hm c hc
  simp only [convert_track] at hm
  by_cases hflag : (convert_msgs ((0:Nat) == 0) (trio_track_names.getD 0 "") track).2
  · rw [if_pos hflag] at hm
    exact convert_msgs_first_channel _ track m hm c hc
  · rw [if_neg hflag] at hm
    rcases List.mem_cons.mp hm with rfl | hmem
    · simp at hc
    · exact convert_msgs_first_channel _ track m hmem c hc

theorem convert_track_rest_channels (i : Nat) (hne : (i == 0) = false)
    (track : List MidoMsg)
    (hmeta : ∀ m ∈ track, m.mtype = "track_name" → m.channel = none) :
    (convert_track i track).filterMap (fun m => m.channel) =
      track.filterMap (fun m => m.channel) := by
  simp only [convert_track, hne]
  by_cases hflag : (convert_msgs false (trio_track_names.getD i "") track).2
  · rw [if_pos hflag]
    exact convert_msgs_rest_channels _ track hmeta
  · rw [if_neg hflag, List.filterMap_cons]
    simpa using convert_msgs_rest_channels _ track hmeta

/-! ### Lemmas about the batch loop -/

theorem process_foldl (files : List LoadResult) (init : Stats) :
    (files.foldl process_step init).total = init.total + files.length ∧
    (files.foldl process_step init).success + (files.foldl process_step init).failed =
      init.success + init.failed + files.length := by
  induction files generalizing init with
  | nil => simp
  | cons f fs ih =>
    simp only [List.foldl_cons, List.length_cons]
    have hrec := ih (process_step init f)
    have hstep : (process_step init f).total = init.total + 1 ∧
        (process_step init f).success + (process_step init f).failed =
          init.success + init.failed + 1 := by
      unfold process_step
      split
      · refine ⟨rfl, ?_⟩
        show init.success + 1 + init.failed = init.success + init.failed + 1
        omega
      · refine ⟨rfl, ?_⟩
        show init.success + (init.failed + 1) = init.success + init.failed + 1
        omega
    omega

/-! ### Unfolding `identify_melody_track` -/

theorem identify_eq_some (m : PrettyMIDI) (w : Instrument)
    (h : identify_melody_track m = some w) :
    ∃ u, (sorted_track_info m).head? = some u ∧ u.instrument = w ∧
      u ∈ scored_track_info m := by
  simp only [identify_melody_track] at h
  by_cases he : (collect_track_info m).isEmpty
  · rw [if_pos he] at h
    simp at h
  · rw [if_neg he] at h
    obtain ⟨u, hu, hw⟩ := Option.map_eq_some'.mp h
    have hmem : u ∈ sorted_track_info m := by
      cases hl : sorted_track_info m with
      | nil =>
        rw [hl] at hu
        simp at hu
      | cons y ys =>
        rw [hl] at hu
        have hyu : y = u := Option.some_inj.mp hu
        rw [← hyu]
        exact List.mem_cons_self _ _
    exact ⟨u, hu, hw, (sort_perm (scored_track_info m)).mem_iff.mp hmem⟩

/-! ### Concrete example documents -/

/-- A note with the given pitch and times (velocity 100). -/
def mk_note (p : Int) (s e : ℚ) : Note :=
  { pitch := p, velocity := 100, start := s, end_ := e }

def insC1 : Instrument :=
  { program := 5, is_drum := false, name := "piano",
    notes := [mk_note 60 0 1, mk_note 64 1 2] }

def docC1 : PrettyMIDI :=
  { resolution := 220, tempos := [95], instruments := [insC1] }

def outC1 : PrettyMIDI :=
  { resolution := 220, tempos := [95],
    instruments := [{ program := 5, is_drum := false, name := "Melody",
                      notes := insC1.notes }] }

def insDrum : Instrument :=
  { program := 0, is_drum := true, name := "Drums", notes := [mk_note 36 0 1] }

def insEmpty : Instrument :=
  { program := 1, is_drum := false, name := "empty", notes := [] }

def insGood : Instrument :=
  { program := 2, is_drum := false, name := "piano", notes := [mk_note 60 0 1] }

def docC4 : PrettyMIDI :=
  { resolution := 220, tempos := [], instruments := [insDrum, insEmpty, insGood] }

def docC5 : PrettyMIDI :=
  { resolution := 220, tempos := [], instruments := [insDrum, insEmpty] }

def insZ : Instrument :=
  { program := 0, is_drum := false, name := "z", notes := [mk_note 60 0 0] }

def docC6 : PrettyMIDI :=
  { resolution := 220, tempos := [], instruments := [insZ] }

/-! ### Claims -/

/-- C1: whenever melody extraction succeeds, the output document contains
exactly one track, named "Melody", with `is_drum = false`, the winning
track's `program`, and a note-for-note copy of the winning track's notes
in their original order. -/
theorem extract_melody_single_melody_track (m out : PrettyMIDI)
    (h : extract_melody m = some out) :
    ∃ w, identify_melody_track m = some w ∧
      out.instruments =
        [{ program := w.program, is_drum := false, name := "Melody",
           notes := w.notes }] := by
  unfold extract_melody at h
  cases hid : identify_melody_track m with
  | none =>
    rw [hid] at h
    exact Option.noConfusion h
  | some w =>
    rw [hid] at h
    have hout := Option.some_inj.mp h
    refine ⟨w, rfl, ?_⟩
    rw [← hout]
    show [({ program := w.program, is_drum := false, name := "Melody",
             notes := w.notes.map (fun note =>
               { velocity := note.velocity, pitch := note.pitch,
                 start := note.start, end_ := note.end_ }) } : Instrument)] =
      [{ program := w.program, is_drum := false, name := "Melody",
         notes := w.notes }]
    have hfun : (fun note : Note =>
        ({ velocity := note.velocity, pitch := note.pitch, start := note.start,
           end_ := note.end_ } : Note)) = fun note => note := rfl
    rw [hfun, List.map_id']

/-- C1 witness: the theorem applied to a concrete document. -/
theorem extract_melody_single_melody_track_witness :
    ∃ w, identify_melody_track docC1 = some w ∧
      outC1.instruments =
        [{ program := w.program, is_drum := false, name := "Melody",
           notes := w.notes }] :=
  extract_melody_single_melody_track docC1 outC1 (by decide)

/-- C4: a track with no notes or with `is_drum = true` produces no
`TrackInfo` record (first conjunct: every collected record comes from a
non-empty, non-drum track) and is never the selected melody track
(second conjunct). -/
theorem drum_or_empty_never_selected (m : PrettyMIDI) :
    (∀ t ∈ collect_track_info m, t.instrument.notes ≠ [] ∧ t.instrument.is_drum = false) ∧
    (∀ w, identify_melody_track m = some w → w.notes ≠ [] ∧ w.is_drum = false) := by
  have hpart1 : ∀ t ∈ collect_track_info m,
      t.instrument.notes ≠ [] ∧ t.instrument.is_drum = false := by
    intro t ht
    obtain ⟨p, hp, hne, hdrum, rfl⟩ := (mem_collect_iff m t).mp ht
    rw [build_instrument]
    refine ⟨fun hnil => hne ?_, hdrum⟩
    rw [hnil]
    rfl
  refine ⟨hpart1, ?_⟩
  intro w hw
  obtain ⟨u, hhead, hinst, humem⟩ := identify_eq_some m w hw
  obtain ⟨t, htc, rfl⟩ := (mem_scored_iff m u).mp humem
  have hgood := hpart1 t htc
  rw [← hinst, score_track_instrument]
  exact hgood

/-- C4 witness: on a document with a drum track, an empty track and one
real track, the real track is selected and satisfies the invariant. -/
theorem drum_or_empty_never_selected_witness :
    identify_melody_track docC4 = some insGood ∧
      insGood.notes ≠ [] ∧ insGood.is_drum = false :=
  ⟨by decide, (drum_or_empty_never_selected docC4).2 insGood (by decide)⟩

/-- C5: when every track is empty or a drum track, identification returns
`None` and extraction fails producing no output document. -/
theorem no_candidates_no_output (m : PrettyMIDI)
    (h : ∀ ins ∈ m.instruments, ins.notes = [] ∨ ins.is_drum = true) :
    identify_melody_track m = none ∧ extract_melody m = none := by
  have hcol : collect_track_info m = [] := by
    unfold collect_track_info
    rw [List.filterMap_eq_nil_iff]
    intro p hp
    rcases h p.2 (snd_mem_of_mem_enum hp) with hnil | hdrum
    · unfold keep_candidate
      rw [if_pos (by rw [hnil]; rfl)]
    · unfold keep_candidate
      by_cases hlen : p.2.notes.length = 0
      · rw [if_pos hlen]
      · rw [if_neg hlen, if_pos hdrum]
  have hid : identify_melody_track m = none := by
    simp only [identify_melody_track]
    rw [hcol]
    simp
  refine ⟨hid, ?_⟩
  unfold extract_melody
  rw [hid]

/-- C5 witness: a document with only a drum track and an empty track. -/
theorem no_candidates_no_output_witness :
    identify_melody_track docC5 = none ∧ extract_melody docC5 = none :=
  no_candidates_no_output docC5 (by decide)

/-- C6: the guarded normalizations of the score computation: a document of
total duration 0 gives every candidate `note_density = 0`; a zero
`max_density` forces `density_score = 0`; `max_pitch_change` is always
strictly positive (never a zero divisor); a track with
`avg_pitch_change = 0` gets `change_score = 0`; fewer than two notes give
`avg_pitch_change = 0`; and an empty note list gives `avg_pitch = 0` and
`avg_pitch_change = 0`. -/
theorem score_guard_zeroes (m : PrettyMIDI) :
    (m.get_end_time = 0 → ∀ t ∈ collect_track_info m, t.note_density = 0) ∧
    (∀ t : TrackInfo, max_density_of (collect_track_info m) = 0 →
      density_score_of (max_density_of (collect_track_info m)) t = 0) ∧
    (0 < max_pitch_change_of (collect_track_info m)) ∧
    (∀ t : TrackInfo, t.avg_pitch_change = 0 →
      change_score_of (max_pitch_change_of (collect_track_info m)) t = 0) ∧
    (∀ t ∈ collect_track_info m, t.num_notes < 2 → t.avg_pitch_change = 0) ∧
    (∀ (td : ℚ) (i : Nat) (ins : Instrument), ins.notes = [] →
      (build_track_info td i ins).avg_pitch = 0 ∧
        (build_track_info td i ins).avg_pitch_change = 0) := by
  refine ⟨?_, ?_, max_pitch_change_pos _, ?_, ?_, ?_⟩
  · intro hdur t ht
    obtain ⟨p, hp, hne, hdrum, rfl⟩ := (mem_collect_iff m t).mp ht
    rw [build_note_density, hdur]
    rw [if_neg (lt_irrefl 0)]
  · intro t hmd
    unfold density_score_of
    rw [if_neg]
    rw [hmd]
    exact lt_irrefl 0
  · intro t h0
    unfold change_score_of
    rw [if_neg]
    intro hcon
    rw [h0] at hcon
    exact lt_irrefl 0 hcon.2
  · intro t ht hnum
    obtain ⟨p, hp, hne, hdrum, rfl⟩ := (mem_collect_iff m t).mp ht
    rw [build_num_notes] at hnum
    rw [build_avg_pitch_change]
    have hempty : pitch_changes_of p.2 = [] := by
      cases hnotes : p.2.notes with
      | nil =>
        unfold pitch_changes_of pitches_of
        rw [hnotes]
        rfl
      | cons n rest =>
        cases rest with
        | nil =>
          unfold pitch_changes_of pitches_of
          rw [hnotes]
          rfl
        | cons n2 r2 =>
          exfalso
          rw [hnotes] at hnum
          simp only [List.length_cons] at hnum
          omega
    rw [hempty]
    rfl
  · intro td i ins hnil
    have hp : pitches_of ins = [] := by
      unfold pitches_of
      rw [hnil]
      rfl
    have hpc : pitch_changes_of ins = [] := by
      unfold pitch_changes_of
      rw [hp]
      rfl
    constructor
    · rw [build_avg_pitch, hp]
      rfl
    · rw [build_avg_pitch_change, hpc]
      rfl

/-- C6 witness: a document whose only note ends at time 0, so the total
duration is 0 and the candidate's density is 0. -/
theorem score_guard_zeroes_witness :
    docC6.get_end_time = 0 ∧ ∀ t ∈ collect_track_info docC6, t.note_density = 0 :=
  ⟨by decide, (score_guard_zeroes docC6).1 (by decide)⟩

/-- C9: melody extraction is a pure function of the input document: two
runs on equal inputs yield equal outputs. -/
theorem extract_melody_deterministic (d1 d2 : PrettyMIDI) (h : d1 = d2) :
    extract_melody d1 = extract_melody d2 := by
  rw [h]

/-- C9 witness: the theorem applied twice to the same concrete document. -/
theorem extract_melody_deterministic_witness :
    extract_melody docC1 = extract_melody docC1 :=
  extract_melody_deterministic docC1 docC1 rfl

/-- C8: the Melody Scorer's sorted list is a permutation of the scored
candidate records, ordered by `melody_score` descending, with equal scores
keeping the smaller original track index first (stability of the sort). -/
theorem sorted_track_info_spec (m : PrettyMIDI) :
    List.Perm (sorted_track_info m) (scored_track_info m) ∧
    (sorted_track_info m).Pairwise rank_rel :=
  ⟨sort_perm _, sort_pairwise _ (scored_pairwise_index m)⟩

/-- C7: with per-file failures modelled as `Except`-style load results, a
failed load is reported as boolean `false` plus a nonempty message, and the
batch loop still counts every file, each one as success or failure. -/
theorem per_file_failures_contained (files : List LoadResult) :
    (∀ e : String, (extract_melody_file (LoadResult.failed e)).1 = false ∧
      (extract_melody_file (LoadResult.failed e)).2 ≠ "") ∧
    (process_directory files).total = files.length ∧
    (process_directory files).success + (process_directory files).failed =
      files.length := by
  refine ⟨?_, ?_, ?_⟩
  · intro e
    refine ⟨rfl, ?_⟩
    intro hcon
    have hcon2 : ("处理文件时出错: " ++ e : String) = "" := hcon
    have hlen := congrArg String.length hcon2
    rw [String.length_append] at hlen
    have hlit : ("处理文件时出错: " : String).length ≠ 0 := by decide
    have h0 : ("" : String).length = 0 := rfl
    omega
  · have h := process_foldl files { total := 0, success := 0, failed := 0 }
    simpa using h.1
  · have h := process_foldl files { total := 0, success := 0, failed := 0 }
    simpa using h.2

def insHi : Instrument :=
  { program := 0, is_drum := false, name := "piano",
    notes := [mk_note 126 0 1, mk_note 127 0 1] }

def docHi : PrettyMIDI :=
  { resolution := 220, tempos := [], instruments := [insHi] }

/-- C2 counterexample: the non-name score terms are not bounded by
0.4+0.3+0.3 = 1.0; in this document the single candidate's name matches no
keyword (`name_score = 0`) yet its `melody_score` exceeds 1, because
`pitch_score` can reach 0.3*(127-40)/40 = 0.6525 > 0.3. -/
theorem nonname_score_exceeds_one :
    ∃ t ∈ scored_track_info docHi, t.name_score = 0 ∧ (1 : ℚ) < t.melody_score := by
  decide

/-- C2 (amended): with MIDI pitches at most 127 the non-name score terms
sum to at most 2/5 + 261/400 + 3/10 = 541/400 = 1.3525 (not 1.0), which is
still below the name bonus 10, so whenever some candidate's name contains
a melody keyword, the selected track's name contains a melody keyword. -/
theorem keyword_track_always_selected (m : PrettyMIDI)
    (hpitch : ∀ ins ∈ m.instruments, ∀ note ∈ ins.notes, note.pitch ≤ 127)
    (hkw : ∃ t ∈ collect_track_info m, has_melody_keyword t.instrument.name = true) :
    (∀ u ∈ scored_track_info m, has_melody_keyword u.instrument.name = false →
      u.melody_score ≤ 541/400) ∧
    (∀ w, identify_melody_track m = some w → has_melody_keyword w.name = true) := by
  have hbound : ∀ u ∈ scored_track_info m,
      has_melody_keyword u.instrument.name = false → u.melody_score ≤ 541/400 := by
    intro u hu hnk
    obtain ⟨t, htc, rfl⟩ := (mem_scored_iff m u).mp hu
    rw [score_track_instrument] at hnk
    rw [score_track_melody_score]
    have hname : t.name_score = 0 := by
      rw [collect_name_score_eq m t htc, hnk]
      simp
    have hp127 : t.avg_pitch ≤ 127 := by
      apply collect_avg_pitch_le m t htc
      obtain ⟨p, hpmem, _, _, rfl⟩ := (mem_collect_iff m t).mp htc
      rw [build_instrument]
      exact hpitch p.2 (snd_mem_of_mem_enum hpmem)
    have hds := density_score_of_le (max_density_of (collect_track_info m)) t
      (note_density_le_max_density _ _ htc)
    have hps := pitch_score_of_le t hp127
    have hcs := change_score_of_le (max_pitch_change_of (collect_track_info m)) t
      (fun hpos => apc_le_max_pitch_change _ _ htc hpos)
    rw [hname]
    linarith
  refine ⟨hbound, ?_⟩
  intro w hw
  obtain ⟨u0, hhead, hinst, hu0⟩ := identify_eq_some m w hw
  obtain ⟨tk, htk, hkwname⟩ := hkw
  have humem : score_track (max_density_of (collect_track_info m))
      (max_pitch_change_of (collect_track_info m)) tk ∈ scored_track_info m :=
    (mem_scored_iff m _).mpr ⟨tk, htk, rfl⟩
  have hk10 : (10:ℚ) ≤ (score_track (max_density_of (collect_track_info m))
      (max_pitch_change_of (collect_track_info m)) tk).melody_score := by
    rw [score_track_melody_score]
    have hname : tk.name_score = 10 := by
      rw [collect_name_score_eq m tk htk, hkwname]
      simp
    have h1 := density_score_of_nonneg (max_density_of (collect_track_info m)) tk
      (collect_note_density_nonneg m tk htk)
    have h2 := pitch_score_of_nonneg tk
    have h3 := change_score_of_nonneg (max_pitch_change_of (collect_track_info m)) tk
    rw [hname]
    linarith
  have hmax := pairwise_head_max (sorted_track_info m)
    (sort_pairwise _ (scored_pairwise_index m)) u0 hhead
  have hsmem : score_track (max_density_of (collect_track_info m))
      (max_pitch_change_of (collect_track_info m)) tk ∈ sorted_track_info m :=
    (sort_perm (scored_track_info m)).mem_iff.mpr humem
  have h10 : (10:ℚ) ≤ u0.melody_score := le_trans hk10 (hmax _ hsmem)
  cases hcase : has_melody_keyword u0.instrument.name with
  | false =>
    exfalso
    have := hbound u0 hu0 hcase
    linarith
  | true =>
    rw [← hinst]
    exact hcase

def insLead : Instrument :=
  { program := 3, is_drum := false, name := "Lead Melody",
    notes := [mk_note 60 0 1, mk_note 62 1 2] }

def docC2W : PrettyMIDI :=
  { resolution := 220, tempos := [], instruments := [insDrum, insLead, insC1] }

/-- C2 witness: on a concrete document with a drum track, a track named
"Lead Melody" and a plain piano track, the selected track's name matches a
keyword. -/
theorem keyword_track_always_selected_witness :
    has_melody_keyword insLead.name = true :=
  (keyword_track_always_selected docC2W (by decide) (by decide)).2 insLead (by decide)

def insA : Instrument :=
  { program := 5, is_drum := false, name := "a",
    notes := [mk_note 40 0 1, mk_note 40 0 1, mk_note 40 0 1] }

def insB : Instrument :=
  { program := 7, is_drum := false, name := "b",
    notes := [mk_note 20 0 1, mk_note 40 0 1] }

def docC3 : PrettyMIDI :=
  { resolution := 220, tempos := [], instruments := [insA, insB] }

/-- C3 counterexample: in `docC3` no name matches a keyword and the first
candidate has strictly higher `note_density` (3 vs 2) and strictly higher
`avg_pitch` (40 vs 30) than the second, yet the second track wins the
ranking: its `change_score` (0.3) outweighs the density gap. -/
theorem higher_density_pitch_loses :
    ((collect_track_info docC3).map
        (fun t => (t.note_density, t.avg_pitch, t.name_score)) =
      [(3, 40, 0), (2, 30, 0)]) ∧
    identify_melody_track docC3 = some insB ∧ insB ≠ insA := by
  decide

/-- C3 (amended): when no candidate name matches a keyword, a candidate
with strictly higher `note_density`, strictly higher `avg_pitch` AND at
least as large `avg_pitch_change` as another candidate scores strictly
higher and is ranked strictly earlier in the sorted list. -/
theorem higher_density_pitch_change_wins (m : PrettyMIDI)
    (hnk : ∀ t ∈ collect_track_info m, t.name_score = 0)
    (a b : TrackInfo)
    (ha : a ∈ scored_track_info m) (hb : b ∈ scored_track_info m)
    (hd : b.note_density < a.note_density)
    (hp : b.avg_pitch < a.avg_pitch)
    (hc : b.avg_pitch_change ≤ a.avg_pitch_change) :
    b.melody_score < a.melody_score ∧
    (∀ (i j : Nat) (hi : i < (sorted_track_info m).length)
        (hj : j < (sorted_track_info m).length),
      (sorted_track_info m).get ⟨i, hi⟩ = a →
      (sorted_track_info m).get ⟨j, hj⟩ = b → i < j) := by
  obtain ⟨ta, hta, rfl⟩ := (mem_scored_iff m a).mp ha
  obtain ⟨tb, htb, rfl⟩ := (mem_scored_iff m b).mp hb
  rw [score_track_note_density, score_track_note_density] at hd
  rw [score_track_avg_pitch, score_track_avg_pitch] at hp
  rw [score_track_avg_pitch_change, score_track_avg_pitch_change] at hc
  have hscore : (score_track (max_density_of (collect_track_info m))
      (max_pitch_change_of (collect_track_info m)) tb).melody_score <
      (score_track (max_density_of (collect_track_info m))
        (max_pitch_change_of (collect_track_info m)) ta).melody_score := by
    rw [score_track_melody_score, score_track_melody_score]
    have hna := hnk ta hta
    have hnb := hnk tb htb
    have hmd : 0 < max_density_of (collect_track_info m) :=
      max_density_pos _ ta hta
        (lt_of_le_of_lt (collect_note_density_nonneg m tb htb) hd)
    have h1 := density_score_of_strict_mono
      (max_density_of (collect_track_info m)) ta tb hmd hd
    have h2 := pitch_score_of_mono ta tb (le_of_lt hp)
    have h3 := change_score_of_mono (max_pitch_change_of (collect_track_info m)) ta tb
      (max_pitch_change_pos _) hc
    rw [hna, hnb]
    linarith
  exact ⟨hscore, pairwise_position_lt (sorted_track_info m)
    (sort_pairwise _ (scored_pairwise_index m)) _ _ hscore⟩

def dummy_track : TrackInfo :=
  { index := 0, name := "", program := 0, is_drum := false, num_notes := 0,
    note_density := 0, avg_pitch := 0, avg_pitch_change := 0, name_score := 0,
    melody_score := 0,
    instrument := { program := 0, is_drum := false, name := "", notes := [] } }

def insAW : Instrument :=
  { program := 0, is_drum := false, name := "a",
    notes := [mk_note 60 0 1, mk_note 67 0 1, mk_note 60 0 1] }

def insBW : Instrument :=
  { program := 1, is_drum := false, name := "b",
    notes := [mk_note 30 0 1, mk_note 31 0 1] }

def docC3W : PrettyMIDI :=
  { resolution := 220, tempos := [], instruments := [insAW, insBW] }

/-- C3 witness: the amended theorem applied to a concrete document where
the first candidate dominates in density, pitch and pitch change. -/
theorem higher_density_pitch_change_wins_witness :
    ((scored_track_info docC3W).getD 1 dummy_track).melody_score <
      ((scored_track_info docC3W).getD 0 dummy_track).melody_score :=
  (higher_density_pitch_change_wins docC3W (by decide)
    ((scored_track_info docC3W).getD 0 dummy_track)
    ((scored_track_info docC3W).getD 1 dummy_track)
    (by decide) (by decide) (by decide) (by decide) (by decide)).1

/-- C10: for a 3-track input whose `track_name` meta messages carry no
channel attribute (always true in mido), relabeling succeeds, every
channel-carrying message of output track 0 has channel 9, and tracks 1
and 2 keep their channel sequences unchanged. -/
theorem convert_to_trio_channels (midi_data out : MidiFile)
    (hmeta : ∀ tr ∈ midi_data.tracks, ∀ mg ∈ tr,
      mg.mtype = "track_name" → mg.channel = none)
    (h : convert_to_trio midi_data = some out) :
    (∀ mg ∈ out.tracks.headD [], ∀ c : Int, mg.channel = some c → c = 9) ∧
    ((out.tracks.getD 1 []).filterMap (fun mg => mg.channel) =
      (midi_data.tracks.getD 1 []).filterMap (fun mg => mg.channel)) ∧
    ((out.tracks.getD 2 []).filterMap (fun mg => mg.channel) =
      (midi_data.tracks.getD 2 []).filterMap (fun mg => mg.channel)) := by
  unfold convert_to_trio at h
  by_cases hlen : midi_data.tracks.length ≠ 3
  · rw [if_pos hlen] at h
    exact Option.noConfusion h
  · rw [if_neg hlen] at h
    have hout := Option.some_inj.mp h
    obtain ⟨t0, t1, t2, htr⟩ := List.length_eq_three.mp (not_not.mp hlen)
    have htracks : out.tracks =
        [convert_track 0 t0, convert_track 1 t1, convert_track 2 t2] := by
      rw [← hout, htr]
      rfl
    refine ⟨?_, ?_, ?_⟩
    · rw [htracks]
      show ∀ mg ∈ convert_track 0 t0, ∀ c : Int, mg.channel = some c → c = 9
      exact convert_track_first_channel t0
    · rw [htracks, htr]
      show (convert_track 1 t1).filterMap (fun mg => mg.channel) =
        t1.filterMap (fun mg => mg.channel)
      refine convert_track_rest_channels 1 rfl t1 ?_
      refine hmeta t1 ?_
      rw [htr]
      simp
    · rw [htracks, htr]
      show (convert_track 2 t2).filterMap (fun mg => mg.channel) =
        t2.filterMap (fun mg => mg.channel)
      refine convert_track_rest_channels 2 rfl t2 ?_
      refine hmeta t2 ?_
      rw [htr]
      simp

def midiW : MidiFile :=
  { ticks_per_beat := 480,
    tracks :=
      [[{ mtype := "track_name", channel := none, name := "t0", time := 0 },
        { mtype := "note_on", channel := some 0, name := "", time := 10 }],
       [{ mtype := "track_name", channel := none, name := "t1", time := 0 },
        { mtype := "note_on", channel := some 3, name := "", time := 10 }],
       [{ mtype := "note_on", channel := some 5, name := "", time := 10 }]] }

def outW : MidiFile :=
  { ticks_per_beat := 480,
    tracks :=
      [[{ mtype := "track_name", channel := none, name := "Drums", time := 0 },
        { mtype := "note_on", channel := some 9, name := "", time := 10 }],
       [{ mtype := "track_name", channel := none, name := "Melody", time := 0 },
        { mtype := "note_on", channel := some 3, name := "", time := 10 }],
       [{ mtype := "track_name", channel := none, name := "Bass", time := 0 },
        { mtype := "note_on", channel := some 5, name := "", time := 10 }]] }

/-- C10 witness: the theorem applied to a concrete 3-track file; track 1's
channel sequence is preserved. -/
theorem convert_to_trio_channels_witness :
    (outW.tracks.getD 1 []).filterMap (fun mg => mg.channel) =
      (midiW.tracks.getD 1 []).filterMap (fun mg => mg.channel) :=
  (convert_to_trio_channels midiW outW (by decide) (by decide)).2.1
